import Mathlib

/-!
Verification of the IagoPython negotiation platform core.

This file gives a shallow embedding, in Lean 4, of the parts of the
negotiation platform that the checked properties talk about:

- the domain model (negoplatform/domain/models.py): issues, allocations,
  offers, utility functions, game specifications and offer validation;
- the event model (negoplatform/core/events.py): typed events with
  payloads, and the dictionary serialization round trip;
- the session state machine (negoplatform/core/session.py): state,
  current offer, formal acceptance flags, history, and apply_event;
- the NegoChat strategy core (negoplatform/agents/negochat/negochat_core.py):
  stack building, the opening offer and the single-unit concession step;
- the delayed-event queue of the event bus (negoplatform/core/bus.py),
  including the exact CPython heap-insertion comparison semantics.

Python integers that the code keeps non-negative (allocation counts,
quantities) are modelled as Nat; utility values and timestamps, floats in
the source, are modelled as Rat; Python dictionaries are modelled as
insertion-ordered association lists with first-match lookup, matching the
unique-key discipline of dict; code that can raise is modelled with
Option or Except.
-/

set_option linter.unusedVariables false

namespace Nego

/-- Dictionary lookup: first entry whose key matches, as Python dict.get. -/
def assocGet {α : Type} : List (String × α) → String → Option α
  | [], _ => none
  | (k, v) :: rest, n => if k = n then some v else assocGet rest n

/-- Dictionary update: replace the value at an existing key in place,
otherwise append the new pair at the end, as Python dict assignment. -/
def assocSet {α : Type} : List (String × α) → String → α → List (String × α)
  | [], n, v => [(n, v)]
  | (k, w) :: rest, n, v =>
    if k = n then (k, v) :: rest else (k, w) :: assocSet rest n v

/-- Party enum from domain/models.py. -/
inductive Party
  | AGENT
  | HUMAN
  deriving DecidableEq, Repr

/-- Issue from domain/models.py: a single negotiable issue. -/
structure Issue where
  name : String
  display_name : String
  quantity : Nat
  divisible : Bool
  deriving DecidableEq, Repr

/-- Allocation from domain/models.py: the agent/middle/human split of one
issue; construction rejects negative counts, hence Nat fields. -/
structure Allocation where
  agent : Nat
  middle : Nat
  human : Nat
  deriving DecidableEq, Repr

/-- Allocation.total property. -/
def Allocation.total (a : Allocation) : Nat :=
  a.agent + a.middle + a.human

/-- Allocation.is_complete: no items remain in the middle. -/
def Allocation.is_complete (a : Allocation) : Bool :=
  a.middle == 0

/-- Allocation.from_tuple. -/
def Allocation.from_tuple (t : Nat × Nat × Nat) : Allocation :=
  ⟨t.1, t.2.1, t.2.2⟩

/-- Allocation.all_to_agent. -/
def Allocation.all_to_agent (quantity : Nat) : Allocation :=
  ⟨quantity, 0, 0⟩

/-- Allocation.all_to_human. -/
def Allocation.all_to_human (quantity : Nat) : Allocation :=
  ⟨0, 0, quantity⟩

/-- Allocation.all_in_middle. -/
def Allocation.all_in_middle (quantity : Nat) : Allocation :=
  ⟨0, quantity, 0⟩

/-- Allocation.split_even: split evenly, remainder goes to middle. -/
def Allocation.split_even (quantity : Nat) : Allocation :=
  let each := quantity / 2
  let remainder := quantity - each * 2
  ⟨each, remainder, each⟩

/-- Offer from domain/models.py: a mapping from issue name to optional
allocation, in insertion order. -/
structure Offer where
  allocations : List (String × Option Allocation)
  deriving DecidableEq, Repr

/-- Offer.__getitem__, which is allocations.get(name): a missing key and a
stored None both come back as None. -/
def Offer.get (o : Offer) (n : String) : Option Allocation :=
  match assocGet o.allocations n with
  | some v => v
  | none => none

/-- Offer.__setitem__: dictionary assignment. -/
def Offer.set (o : Offer) (n : String) (v : Option Allocation) : Offer :=
  ⟨assocSet o.allocations n v⟩

/-- Offer.is_complete: False on an empty allocations mapping, otherwise
every stored allocation must be present and have an empty middle. -/
def Offer.is_complete (o : Offer) : Bool :=
  if o.allocations.isEmpty then false
  else o.allocations.all fun p =>
    match p.2 with
    | some a => a.is_complete
    | none => false

/-- Offer.copy: rebuild every allocation into a fresh record. -/
def Offer.copy (o : Offer) : Offer :=
  ⟨o.allocations.map fun p => (p.1, p.2.map fun a => ⟨a.agent, a.middle, a.human⟩)⟩

/-- Serialized form of an offer: issue name to optional count triple. -/
abbrev OfferDict := List (String × Option (Nat × Nat × Nat))

/-- Offer.from_dict: a None value stays unset, a triple becomes an
allocation (a 3-tuple is always truthy in Python). -/
def Offer.from_dict (d : OfferDict) : Offer :=
  ⟨d.map fun p => (p.1, p.2.map Allocation.from_tuple)⟩

/-- UtilityFunction from domain/models.py. -/
structure UtilityFunction where
  party : Party
  values : List (String × Rat)
  deriving DecidableEq, Repr

/-- Lookup of values.get(name, 0) used across the code base. -/
def UtilityFunction.getValue (u : UtilityFunction) (n : String) : Rat :=
  (assocGet u.values n).getD 0

/-- GameSpec from domain/models.py, restricted to the fields the checked
operations read. -/
structure GameSpec where
  name : String
  description : String
  issues : List Issue
  agent_utility : UtilityFunction
  human_utility : UtilityFunction
  deriving DecidableEq, Repr

/-- GameSpec.get_issue: first issue with the given name. -/
def GameSpec.get_issue (g : GameSpec) (n : String) : Option Issue :=
  g.issues.find? fun i => i.name == n

/-- Loop body of GameSpec.validate_offer over the issue list: an absent
allocation is skipped, a present one must have its three counts sum to the
issue quantity, and the first failure returns immediately. -/
def validateOfferLoop (o : Offer) : List Issue → Bool × String
  | [] => (true, "")
  | i :: rest =>
    match o.get i.name with
    | none => validateOfferLoop o rest
    | some a =>
      if a.total ≠ i.quantity then
        (false, "Issue " ++ i.name ++ " has " ++ toString a.total ++
          " items, expected " ++ toString i.quantity)
      else validateOfferLoop o rest

/-- GameSpec.validate_offer, returning (is_valid, error_message). -/
def GameSpec.validate_offer (g : GameSpec) (o : Offer) : Bool × String :=
  validateOfferLoop o g.issues

theorem validateOfferLoop_iff (o : Offer) (l : List Issue) :
    (validateOfferLoop o l).1 = true ↔
      ∀ i ∈ l, ((o.get i.name).all fun a => a.total == i.quantity) = true := by
  induction l with
  | nil => simp [validateOfferLoop]
  | cons i rest ih =>
    cases h : o.get i.name with
    | none =>
      simp only [validateOfferLoop, h, List.mem_cons]
      constructor
      · intro hv j hj
        rcases hj with hj | hj
        · subst hj; simp [h]
        · exact (ih.mp hv) j hj
      · intro hall
        exact ih.mpr fun j hj => hall j (Or.inr hj)
    | some a =>
      by_cases hq : a.total = i.quantity
      · simp only [validateOfferLoop, h, hq, ne_eq, not_true_eq_false, if_false,
          List.mem_cons]
        constructor
        · intro hv j hj
          rcases hj with hj | hj
          · subst hj; simp [h, hq]
          · exact (ih.mp hv) j hj
        · intro hall
          exact ih.mpr fun j hj => hall j (Or.inr hj)
      · simp only [validateOfferLoop, h, ne_eq, hq, not_false_eq_true, if_true,
          List.mem_cons]
        constructor
        · intro hv
          exact absurd hv (by simp)
        · intro hall
          have := hall i (Or.inl rfl)
          simp [h] at this
          exact absurd this hq

/-- C3: validate_offer succeeds exactly when, for every issue of the game
that is present in the offer, the three counts of its allocation sum to
the issue quantity; issues absent from the offer are skipped. -/
theorem C3_validate_offer_iff_sums (g : GameSpec) (o : Offer) :
    (g.validate_offer o).1 = true ↔
      ∀ i ∈ g.issues, ((o.get i.name).all fun a => a.total == i.quantity) = true :=
  validateOfferLoop_iff o g.issues

/-- Concrete game used for witnesses of the validation claims. -/
def gValid : GameSpec :=
  { name := "test"
    description := "test game"
    issues := [⟨"apples", "Apples", 3, false⟩, ⟨"pens", "Pens", 2, false⟩]
    agent_utility := ⟨Party.AGENT, [("apples", 4), ("pens", 1)]⟩
    human_utility := ⟨Party.HUMAN, [("apples", 1), ("pens", 3)]⟩ }

/-- Offer for the C3 witness: apples fully allocated with a matching sum,
pens left absent. -/
def oValid : Offer :=
  ⟨[("apples", some ⟨2, 0, 1⟩)]⟩

/-- Witness for C3: on a concrete game and a concrete partial offer whose
present allocation sums correctly, validate_offer succeeds. -/
theorem C3_validate_offer_iff_sums_witness :
    (gValid.validate_offer oValid).1 = true :=
  (C3_validate_offer_iff_sums gValid oValid).mpr (by decide)

/-- EventType enum from core/events.py. -/
inductive EventType
  | SEND_MESSAGE
  | SEND_OFFER
  | SEND_EXPRESSION
  | OFFER_IN_PROGRESS
  | TIME
  | FORMAL_ACCEPT
  | GAME_START
  | GAME_END
  deriving DecidableEq, Repr

/-- String tag of each event type, the enum value in the source. -/
def EventType.value : EventType → String
  | .SEND_MESSAGE => "send_message"
  | .SEND_OFFER => "send_offer"
  | .SEND_EXPRESSION => "send_expression"
  | .OFFER_IN_PROGRESS => "offer_in_progress"
  | .TIME => "time"
  | .FORMAL_ACCEPT => "formal_accept"
  | .GAME_START => "game_start"
  | .GAME_END => "game_end"

/-- EventType(tag) enum construction; an unknown tag raises in Python,
modelled as none. -/
def EventType.fromValue (s : String) : Option EventType :=
  if s = "send_message" then some .SEND_MESSAGE
  else if s = "send_offer" then some .SEND_OFFER
  else if s = "send_expression" then some .SEND_EXPRESSION
  else if s = "offer_in_progress" then some .OFFER_IN_PROGRESS
  else if s = "time" then some .TIME
  else if s = "formal_accept" then some .FORMAL_ACCEPT
  else if s = "game_start" then some .GAME_START
  else if s = "game_end" then some .GAME_END
  else none

/-- MessageSubtype enum from core/events.py. -/
inductive MessageSubtype
  | GENERIC
  | OFFER_PROPOSE
  | OFFER_ACCEPT
  | OFFER_REJECT
  | PREF_INFO
  | PREF_REQUEST
  | PREF_SPECIFIC_REQUEST
  | PREF_WITHHOLD
  | TIMING_REQUEST
  | TIMING_INFO
  | GREETING
  | FAREWELL
  | THANKS
  | APOLOGY
  | THREAT
  | PROMISE
  | CONFIRMATION
  | CLARIFICATION
  deriving DecidableEq, Repr

/-- String tag of each message subtype. -/
def MessageSubtype.value : MessageSubtype → String
  | .GENERIC => "generic"
  | .OFFER_PROPOSE => "offer_propose"
  | .OFFER_ACCEPT => "offer_accept"
  | .OFFER_REJECT => "offer_reject"
  | .PREF_INFO => "pref_info"
  | .PREF_REQUEST => "pref_request"
  | .PREF_SPECIFIC_REQUEST => "pref_specific_request"
  | .PREF_WITHHOLD => "pref_withhold"
  | .TIMING_REQUEST => "timing_request"
  | .TIMING_INFO => "timing_info"
  | .GREETING => "greeting"
  | .FAREWELL => "farewell"
  | .THANKS => "thanks"
  | .APOLOGY => "apology"
  | .THREAT => "threat"
  | .PROMISE => "promise"
  | .CONFIRMATION => "confirmation"
  | .CLARIFICATION => "clarification"

/-- MessageSubtype(tag) enum construction; an unknown tag raises,
modelled as none. -/
def MessageSubtype.fromValue (s : String) : Option MessageSubtype :=
  if s = "generic" then some .GENERIC
  else if s = "offer_propose" then some .OFFER_PROPOSE
  else if s = "offer_accept" then some .OFFER_ACCEPT
  else if s = "offer_reject" then some .OFFER_REJECT
  else if s = "pref_info" then some .PREF_INFO
  else if s = "pref_request" then some .PREF_REQUEST
  else if s = "pref_specific_request" then some .PREF_SPECIFIC_REQUEST
  else if s = "pref_withhold" then some .PREF_WITHHOLD
  else if s = "timing_request" then some .TIMING_REQUEST
  else if s = "timing_info" then some .TIMING_INFO
  else if s = "greeting" then some .GREETING
  else if s = "farewell" then some .FAREWELL
  else if s = "thanks" then some .THANKS
  else if s = "apology" then some .APOLOGY
  else if s = "threat" then some .THREAT
  else if s = "promise" then some .PROMISE
  else if s = "confirmation" then some .CONFIRMATION
  else if s = "clarification" then some .CLARIFICATION
  else none

/-- Preference record carried inside message payloads. -/
structure Preference where
  issue1 : String
  issue2 : Option String
  relation : String
  is_query : Bool
  deriving DecidableEq, Repr

/-- Payload dictionary shapes the event factories in core/events.py
produce: the empty dict, a message dict with text and optional
preference, an offer dict, an expression dict, an offer-in-progress dict
with optional partial offer, a time dict with elapsed and optional
remaining seconds, a game-start dict, and a game-end dict with reason and
optional final offer. -/
inductive Payload
  | empty
  | message (text : String) (preference : Option Preference)
  | offer (d : OfferDict)
  | facial (value : String) (duration_ms : Int)
  | offer_in_progress (po : Option OfferDict)
  | time_tick (elapsed_seconds : Rat) (remaining_seconds : Option Rat)
  | game_start (game_name : String) (game_index : Int)
  | game_end (reason : String) (final_offer : Option OfferDict)
  deriving DecidableEq, Repr

/-- Sender id constant for the human party. -/
def HUMAN_ID : String := "human"

/-- Sender id constant for the agent party. -/
def AGENT_ID : String := "agent"

/-- Sender id constant for the system. -/
def SYSTEM_ID : String := "system"

/-- Event record from core/events.py. -/
structure Event where
  event_type : EventType
  sender_id : String
  payload : Payload
  delay_ms : Int
  event_id : String
  timestamp : Rat
  subtype : Option MessageSubtype
  deriving DecidableEq, Repr

/-- Event.get_offer: the payload offer dict for SEND_OFFER events, None
otherwise or when the payload holds no offer key. -/
def Event.get_offer (e : Event) : Option OfferDict :=
  if e.event_type = EventType.SEND_OFFER then
    match e.payload with
    | .offer d => some d
    | _ => none
  else none

/-- Lookup of payload.get with a string default, used by
_handle_game_end for the reason key. -/
def Payload.get_reason (p : Payload) : String :=
  match p with
  | .game_end r _ => r
  | _ => "unknown"

/-- Dictionary produced by Event.to_dict. The keys read through plain
indexing in from_dict are total fields; the keys read through .get with a
default are optional. -/
structure EventDict where
  event_id : String
  event_type : String
  sender_id : String
  timestamp : Rat
  payload : Option Payload
  subtype : Option String
  delay_ms : Option Int
  deriving DecidableEq, Repr

/-- Event.to_dict: serialize every field, enums by their string tag, a
missing subtype as None. -/
def Event.to_dict (e : Event) : EventDict :=
  { event_id := e.event_id
    event_type := e.event_type.value
    sender_id := e.sender_id
    timestamp := e.timestamp
    payload := some e.payload
    subtype := e.subtype.map MessageSubtype.value
    delay_ms := some e.delay_ms }

/-- Subtype reconstruction in Event.from_dict: the Python conditional
builds MessageSubtype(tag) only when data.get("subtype") is truthy, so
None and the empty string give None; enum construction from an unknown
tag raises, modelled as the outer none. -/
def parseSubtype (o : Option String) : Option (Option MessageSubtype) :=
  match o with
  | none => some none
  | some sv =>
    if sv = "" then some none
    else (MessageSubtype.fromValue sv).map some

/-- Event.from_dict: rebuild the event; enum construction from an unknown
tag raises (none); payload and delay_ms fall back to their defaults. -/
def Event.from_dict (d : EventDict) : Option Event :=
  match EventType.fromValue d.event_type, parseSubtype d.subtype with
  | some et, some st =>
    some { event_id := d.event_id, event_type := et, sender_id := d.sender_id,
           timestamp := d.timestamp, payload := d.payload.getD Payload.empty,
           subtype := st, delay_ms := d.delay_ms.getD 0 }
  | _, _ => none

theorem EventType.fromValue_of_value (et : EventType) :
    EventType.fromValue et.value = some et := by
  cases et <;> rfl

theorem MessageSubtype.fromValue_of_subtype_value (st : MessageSubtype) :
    MessageSubtype.fromValue st.value = some st := by
  cases st <;> decide

theorem MessageSubtype.value_ne_empty (st : MessageSubtype) :
    st.value ≠ "" := by
  cases st <;> decide

theorem parseSubtype_map_value (st : Option MessageSubtype) :
    parseSubtype (st.map MessageSubtype.value) = some st := by
  cases st with
  | none => rfl
  | some s =>
    simp [parseSubtype, MessageSubtype.value_ne_empty s,
      MessageSubtype.fromValue_of_subtype_value]

/-- C8: serializing any event to a dictionary and deserializing it back
yields the original event in every field, for every event type and for
optional fields that are None or absent. -/
theorem C8_event_dict_round_trip (e : Event) :
    Event.from_dict (Event.to_dict e) = some e := by
  cases e with
  | mk et sid pl dms eid ts st =>
    simp only [Event.to_dict, Event.from_dict, EventType.fromValue_of_value,
      parseSubtype_map_value, Option.getD]

/-- Concrete event used in the C8 witness. -/
def eRound : Event :=
  { event_type := EventType.SEND_MESSAGE
    sender_id := AGENT_ID
    payload := Payload.message "hello" none
    delay_ms := 1500
    event_id := "ab12cd34"
    timestamp := 100
    subtype := some MessageSubtype.GREETING }

/-- Witness for C8: the round trip evaluated on a concrete event. -/
theorem C8_event_dict_round_trip_witness :
    Event.from_dict (Event.to_dict eRound) = some eRound :=
  C8_event_dict_round_trip eRound

/-- SessionState enum from core/session.py. -/
inductive SessionState
  | NOT_STARTED
  | IN_PROGRESS
  | COMPLETED
  | TIMED_OUT
  | CANCELLED
  deriving DecidableEq, Repr

/-- FormalAcceptance record from core/session.py. -/
structure FormalAcceptance where
  human_accepted : Bool
  agent_accepted : Bool
  human_accepted_at : Option Rat
  agent_accepted_at : Option Rat
  deriving DecidableEq, Repr

/-- FormalAcceptance.reset: both flags false, both timestamps cleared. -/
def FormalAcceptance.reset : FormalAcceptance :=
  ⟨false, false, none, none⟩

/-- FormalAcceptance.both_accepted. -/
def FormalAcceptance.both_accepted (a : FormalAcceptance) : Bool :=
  a.human_accepted && a.agent_accepted

/-- NegotiationSession state from core/session.py; the history field is
the events list of the NegotiationHistory record. -/
structure NegotiationSession where
  game : GameSpec
  session_id : String
  state : SessionState
  current_offer : Offer
  acceptance : FormalAcceptance
  history : List Event
  start_time : Option Rat
  end_time : Option Rat
  last_human_offer : Option Offer
  last_agent_offer : Option Offer
  deriving DecidableEq, Repr

/-- NegotiationSession.is_active property. -/
def NegotiationSession.is_active (s : NegotiationSession) : Bool :=
  s.state == SessionState.IN_PROGRESS

/-- NegotiationSession._complete_negotiation: map the reason string onto
the terminal state and record the end time, now being the wall clock. -/
def NegotiationSession.complete_negotiation (s : NegotiationSession)
    (now : Rat) (reason : String) : NegotiationSession :=
  { s with
    state :=
      if reason = "timeout" then SessionState.TIMED_OUT
      else if reason = "cancelled" then SessionState.CANCELLED
      else SessionState.COMPLETED
    end_time := some now }

/-- NegotiationSession._handle_offer: a missing or empty (falsy) offer
dict does nothing; an invalid offer is only logged; a valid offer
replaces current_offer, records the sender's last offer and resets the
formal acceptances. -/
def NegotiationSession.handle_offer (s : NegotiationSession) (e : Event) :
    NegotiationSession :=
  match e.get_offer with
  | none => s
  | some d =>
    if d.isEmpty then s
    else
      let offer := Offer.from_dict d
      let v := s.game.validate_offer offer
      if v.1 = false then s
      else
        { s with
          current_offer := offer
          last_human_offer :=
            if e.sender_id = HUMAN_ID then some offer else s.last_human_offer
          last_agent_offer :=
            if e.sender_id = HUMAN_ID then s.last_agent_offer else some offer
          acceptance := FormalAcceptance.reset }

/-- NegotiationSession._handle_formal_accept: only valid when the current
offer is complete; marks the sender's flag and timestamp; completes the
negotiation with reason mutual_agreement when both flags are set. -/
def NegotiationSession.handle_formal_accept (now : Rat)
    (s : NegotiationSession) (e : Event) : NegotiationSession :=
  if s.current_offer.is_complete = false then s
  else
    let acc :=
      if e.sender_id = HUMAN_ID then
        { s.acceptance with
          human_accepted := true, human_accepted_at := some e.timestamp }
      else
        { s.acceptance with
          agent_accepted := true, agent_accepted_at := some e.timestamp }
    let s2 := { s with acceptance := acc }
    if acc.both_accepted then s2.complete_negotiation now "mutual_agreement"
    else s2

/-- NegotiationSession.apply_event: when the session is not active every
event except GAME_START and TIME is ignored outright; otherwise the event
is appended to history and then dispatched by type. -/
def NegotiationSession.apply_event (now : Rat) (s : NegotiationSession)
    (e : Event) : NegotiationSession :=
  if s.is_active = false ∧
      ¬(e.event_type = EventType.GAME_START ∨ e.event_type = EventType.TIME) then
    s
  else
    let s1 := { s with history := s.history ++ [e] }
    match e.event_type with
    | EventType.SEND_OFFER => s1.handle_offer e
    | EventType.FORMAL_ACCEPT => NegotiationSession.handle_formal_accept now s1 e
    | EventType.GAME_END => s1.complete_negotiation now e.payload.get_reason
    | _ => s1

theorem validateOfferLoop_no_allocations (l : List Issue) :
    (validateOfferLoop (Offer.mk []) l).1 = true := by
  induction l with
  | nil => rfl
  | cons i rest ih => simpa [validateOfferLoop, Offer.get, assocGet] using ih

/-- C1: while in progress, a formal accept that makes both acceptance
flags true moves the session to COMPLETED (the mutual_agreement path),
and once the session is COMPLETED any SEND_OFFER event is a complete
no-op: the whole session record, history included, is unchanged. -/
theorem C1_mutual_agreement_completes_once (now : Rat)
    (s : NegotiationSession) (e : Event) :
    (s.state = SessionState.IN_PROGRESS →
      e.event_type = EventType.FORMAL_ACCEPT →
      s.acceptance.both_accepted = false →
      (s.apply_event now e).acceptance.both_accepted = true →
      (s.apply_event now e).state = SessionState.COMPLETED) ∧
    (s.state = SessionState.COMPLETED →
      e.event_type = EventType.SEND_OFFER →
      s.apply_event now e = s) := by
  constructor
  · intro h1 h2 h3 h4
    unfold NegotiationSession.apply_event at h4 ⊢
    simp only [NegotiationSession.is_active, h1, h2, beq_self_eq_true,
      Bool.true_eq_false, false_and, if_false] at h4 ⊢
    unfold NegotiationSession.handle_formal_accept at h4 ⊢
    by_cases hc : s.current_offer.is_complete = false
    · simp only [hc, if_true] at h4
      exact absurd h4 (by simp [h3])
    · simp only [hc, if_false] at h4 ⊢
      by_cases hs : e.sender_id = HUMAN_ID
      · simp only [hs, if_true] at h4 ⊢
        by_cases hb :
            FormalAcceptance.both_accepted
              { s.acceptance with
                human_accepted := true,
                human_accepted_at := some e.timestamp } = true
        · simp [hb, NegotiationSession.complete_negotiation]
        · simp only [hb, if_false] at h4
          exact absurd h4 (by simp_all)
      · simp only [hs, if_false] at h4 ⊢
        by_cases hb :
            FormalAcceptance.both_accepted
              { s.acceptance with
                agent_accepted := true,
                agent_accepted_at := some e.timestamp } = true
        · simp [hb, NegotiationSession.complete_negotiation]
        · simp only [hb, if_false] at h4
          exact absurd h4 (by simp_all)
  · intro h1 h2
    unfold NegotiationSession.apply_event
    simp [NegotiationSession.is_active, h1, h2]

/-- C2: a formal accept while the current offer is incomplete leaves the
whole acceptance record (both flags and both timestamps) unchanged, and a
valid offer replacing the current offer resets the acceptance record. -/
theorem C2_accept_guard_and_reset (now : Rat)
    (s : NegotiationSession) (e : Event) :
    (s.state = SessionState.IN_PROGRESS →
      e.event_type = EventType.FORMAL_ACCEPT →
      s.current_offer.is_complete = false →
      (s.apply_event now e).acceptance = s.acceptance) ∧
    (∀ d : OfferDict,
      s.state = SessionState.IN_PROGRESS →
      e.event_type = EventType.SEND_OFFER →
      e.get_offer = some d →
      d.isEmpty = false →
      (s.game.validate_offer (Offer.from_dict d)).1 = true →
      (s.apply_event now e).acceptance = FormalAcceptance.reset) := by
  constructor
  · intro h1 h2 h3
    unfold NegotiationSession.apply_event
    simp only [NegotiationSession.is_active, h1, h2, beq_self_eq_true,
      Bool.true_eq_false, false_and, if_false]
    unfold NegotiationSession.handle_formal_accept
    simp only [h3, if_true]
  · intro d h1 h2 h3 h4 h5
    unfold NegotiationSession.apply_event
    simp only [NegotiationSession.is_active, h1, h2, beq_self_eq_true,
      Bool.true_eq_false, false_and, if_false]
    unfold NegotiationSession.handle_offer
    simp only [Event.get_offer, h2, if_true] at h3 ⊢
    rw [h3]
    simp [h4, h5]

/-- C4 counterexample input: an in-progress session receiving an invalid
offer (one unit allocated out of two) from the human. -/
def gSess : GameSpec :=
  { name := "sess"
    description := "session game"
    issues := [⟨"apples", "Apples", 2, false⟩]
    agent_utility := ⟨Party.AGENT, [("apples", 5)]⟩
    human_utility := ⟨Party.HUMAN, [("apples", 3)]⟩ }

/-- In-progress session over gSess with a complete current offer and a
prior human acceptance. -/
def sProg : NegotiationSession :=
  { game := gSess
    session_id := "s1"
    state := SessionState.IN_PROGRESS
    current_offer := ⟨[("apples", some ⟨2, 0, 0⟩)]⟩
    acceptance := ⟨true, false, some 5, none⟩
    history := []
    start_time := some 0
    end_time := none
    last_human_offer := none
    last_agent_offer := none }

/-- Completed session over gSess. -/
def sDone : NegotiationSession :=
  { sProg with
    state := SessionState.COMPLETED
    acceptance := ⟨true, true, some 5, some 6⟩ }

/-- In-progress session whose current offer still has middle items. -/
def sIncomplete : NegotiationSession :=
  { sProg with
    current_offer := ⟨[("apples", some ⟨1, 1, 0⟩)]⟩
    acceptance := ⟨false, false, none, none⟩ }

/-- In-progress session whose current offer has no allocations at all. -/
def sNoAlloc : NegotiationSession :=
  { sProg with
    current_offer := ⟨[]⟩
    acceptance := ⟨false, false, none, none⟩ }

/-- Formal accept sent by the agent. -/
def eAccept : Event :=
  ⟨EventType.FORMAL_ACCEPT, AGENT_ID, Payload.empty, 0, "ev1", 6, none⟩

/-- Valid offer event from the human: both units allocated. -/
def eOffer : Event :=
  ⟨EventType.SEND_OFFER, HUMAN_ID, Payload.offer [("apples", some (1, 0, 1))],
    0, "ev2", 7, none⟩

/-- Invalid offer event from the human: only one of two units placed. -/
def eBad : Event :=
  ⟨EventType.SEND_OFFER, HUMAN_ID, Payload.offer [("apples", some (1, 0, 0))],
    0, "ev3", 8, none⟩

/-- Witness for C1: the agent accepting after the human yields COMPLETED
on a concrete in-progress session, and a SEND_OFFER applied to a concrete
completed session changes nothing. -/
theorem C1_mutual_agreement_completes_once_witness :
    (sProg.apply_event 6 eAccept).state = SessionState.COMPLETED ∧
    sDone.apply_event 7 eOffer = sDone :=
  ⟨(C1_mutual_agreement_completes_once 6 sProg eAccept).1 rfl rfl (by decide)
      (by decide),
    (C1_mutual_agreement_completes_once 7 sDone eOffer).2 rfl rfl⟩

/-- Witness for C2: on a concrete incomplete current offer a formal
accept leaves the acceptance record unchanged, and a concrete valid offer
resets the acceptance record. -/
theorem C2_accept_guard_and_reset_witness :
    (sIncomplete.apply_event 6 eAccept).acceptance = sIncomplete.acceptance ∧
    (sProg.apply_event 7 eOffer).acceptance = FormalAcceptance.reset :=
  ⟨(C2_accept_guard_and_reset 6 sIncomplete eAccept).1 rfl rfl (by decide),
    (C2_accept_guard_and_reset 7 sProg eOffer).2 [("apples", some (1, 0, 1))]
      rfl rfl rfl (by decide) (by decide)⟩

/-- C4 counterexample: applying an invalid SEND_OFFER to an in-progress
session does change the session record, because the event is appended to
the history before validation rejects the offer. -/
theorem C4_counterexample_history_grows :
    sProg.state = SessionState.IN_PROGRESS ∧
    eBad.event_type = EventType.SEND_OFFER ∧
    (sProg.game.validate_offer (Offer.from_dict [("apples", some (1, 0, 0))])).1
      = false ∧
    sProg.apply_event 8 eBad ≠ sProg := by
  refine ⟨rfl, rfl, by decide, ?_⟩
  decide

/-- C4 amended: applying a SEND_OFFER whose offer fails validation leaves
current_offer, the acceptance record, the state and every other session
field unchanged, except that the event is still appended to the history. -/
theorem C4_invalid_offer_only_logged (now : Rat)
    (s : NegotiationSession) (e : Event) (d : OfferDict)
    (h1 : s.state = SessionState.IN_PROGRESS)
    (h2 : e.event_type = EventType.SEND_OFFER)
    (h3 : e.get_offer = some d)
    (h4 : (s.game.validate_offer (Offer.from_dict d)).1 = false) :
    s.apply_event now e = { s with history := s.history ++ [e] } := by
  have hne : d.isEmpty = false := by
    cases d with
    | nil =>
      have := validateOfferLoop_no_allocations s.game.issues
      rw [show Offer.from_dict [] = Offer.mk [] from rfl] at h4
      rw [GameSpec.validate_offer] at h4
      rw [this] at h4
      cases h4
    | cons p rest => rfl
  unfold NegotiationSession.apply_event
  simp only [NegotiationSession.is_active, h1, h2, beq_self_eq_true,
    Bool.true_eq_false, false_and, if_false]
  unfold NegotiationSession.handle_offer
  rw [show Event.get_offer
        { e with event_type := e.event_type } = some d from h3]
  simp only [hne, Bool.false_eq_true, if_false, h4, if_true]

/-- Witness for C4 amended: on the concrete invalid offer the session
after apply_event equals the original with only the event appended. -/
theorem C4_invalid_offer_only_logged_witness :
    sProg.apply_event 8 eBad = { sProg with history := sProg.history ++ [eBad] } :=
  C4_invalid_offer_only_logged 8 sProg eBad [("apples", some (1, 0, 0))]
    rfl rfl rfl (by decide)

/-- C10: an offer with an empty allocations mapping is not complete, so a
formal accept while the current offer has no allocations never changes
the acceptance record, even though the empty offer vacuously has every
present allocation complete. -/
theorem C10_empty_offer_blocks_accept (now : Rat)
    (s : NegotiationSession) (e : Event) :
    (Offer.mk []).is_complete = false ∧
    (s.current_offer = Offer.mk [] →
      e.event_type = EventType.FORMAL_ACCEPT →
      (s.apply_event now e).acceptance = s.acceptance) := by
  refine ⟨rfl, ?_⟩
  intro h1 h2
  unfold NegotiationSession.apply_event
  by_cases ha : s.is_active = false
  · simp [ha, h2]
  · simp only [ha, false_and, if_false]
    simp only [h2]
    unfold NegotiationSession.handle_formal_accept
    simp only [h1]
    rfl

/-- Witness for C10: on a concrete session whose current offer has no
allocations, a formal accept leaves the acceptance record unchanged. -/
theorem C10_empty_offer_blocks_accept_witness :
    (sNoAlloc.apply_event 6 eAccept).acceptance = sNoAlloc.acceptance :=
  (C10_empty_offer_blocks_accept 6 sNoAlloc eAccept).2 rfl rfl

/-- StackStrategy enum from negochat_core.py. -/
inductive StackStrategy
  | AGGRESSIVE
  | BALANCED
  | COOPERATIVE
  deriving DecidableEq, Repr

/-- IssueAnalysis record from negochat_core.py. -/
structure IssueAnalysis where
  issue_name : String
  agent_value : Rat
  opponent_value : Rat
  quantity : Nat
  deriving DecidableEq, Repr

/-- IssueAnalysis.value_difference: positive when the agent values the
issue more than the opponent. -/
def IssueAnalysis.value_difference (a : IssueAnalysis) : Rat :=
  a.agent_value - a.opponent_value

/-- NegotiationStacks record from negochat_core.py. -/
structure NegotiationStacks where
  stack_a : List String
  stack_b : List String
  neutral : List String
  a_index : Nat
  b_index : Nat
  deriving DecidableEq, Repr

/-- Stable descending insertion by key, modelling one step of Python
list.sort(key=..., reverse=True): among equal keys the earlier element
stays first. -/
def insertDescBy {α : Type} (key : α → Rat) (x : α) : List α → List α
  | [] => [x]
  | y :: ys => if key y ≤ key x then x :: y :: ys else y :: insertDescBy key x ys

/-- Stable descending sort by key. -/
def sortDescBy {α : Type} (key : α → Rat) : List α → List α
  | [] => []
  | x :: xs => insertDescBy key x (sortDescBy key xs)

/-- Stable ascending insertion by key, modelling one step of Python
list.sort(key=...). -/
def insertAscBy {α : Type} (key : α → Rat) (x : α) : List α → List α
  | [] => [x]
  | y :: ys => if key x ≤ key y then x :: y :: ys else y :: insertAscBy key x ys

/-- Stable ascending sort by key. -/
def sortAscBy {α : Type} (key : α → Rat) : List α → List α
  | [] => []
  | x :: xs => insertAscBy key x (sortAscBy key xs)

/-- Analysis loop of _build_stacks: one IssueAnalysis per game issue,
values looked up with default 0. -/
def analysisList (g : GameSpec) (au ou : UtilityFunction) : List IssueAnalysis :=
  g.issues.map fun i => ⟨i.name, au.getValue i.name, ou.getValue i.name, i.quantity⟩

/-- Partition loop of _build_stacks: appends each issue name, in list
order, to stack_a on a positive value difference, stack_b on a negative
one, neutral on zero. -/
def partitionAnalyses : List IssueAnalysis → NegotiationStacks
  | [] => ⟨[], [], [], 0, 0⟩
  | a :: rest =>
    let st := partitionAnalyses rest
    if 0 < a.value_difference then { st with stack_a := a.issue_name :: st.stack_a }
    else if a.value_difference < 0 then { st with stack_b := a.issue_name :: st.stack_b }
    else { st with neutral := a.issue_name :: st.neutral }

/-- NegoChatCore._build_stacks: sort the analyses by value difference
descending, partition by sign, then reorder within the stacks according
to the strategy. -/
def build_stacks (g : GameSpec) (au ou : UtilityFunction)
    (strategy : StackStrategy) : NegotiationStacks :=
  let analyses := sortDescBy IssueAnalysis.value_difference (analysisList g au ou)
  let base := partitionAnalyses analyses
  match strategy with
  | .AGGRESSIVE =>
    { base with
      stack_a := sortDescBy (fun n => au.getValue n) base.stack_a
      stack_b := sortDescBy (fun n => au.getValue n) base.stack_b }
  | .COOPERATIVE =>
    { base with stack_b := sortAscBy (fun n => ou.getValue n) base.stack_b }
  | .BALANCED => base

/-- NegoChatCore state from negochat_core.py. -/
structure NegoChatCore where
  game : GameSpec
  agent_utility : UtilityFunction
  opponent_utility : UtilityFunction
  strategy : StackStrategy
  min_acceptable_utility : Rat
  concession_rate : Rat
  issue_stacks : NegotiationStacks
  current_proposal : Option Offer
  last_opponent_offer : Option Offer
  concession_count : Nat
  offers_made : Nat
  deriving DecidableEq, Repr

/-- NegoChatCore.__init__ with the stacks built from the utilities. -/
def NegoChatCore.init (g : GameSpec) (au ou : UtilityFunction)
    (strategy : StackStrategy) (minAcc rate : Rat) : NegoChatCore :=
  ⟨g, au, ou, strategy, minAcc, rate, build_stacks g au ou strategy,
    none, none, 0, 0⟩

/-- NegoChatCore.get_opening_offer: over the game issues in order, claim
every stack_a issue outright, give away or split every stack_b issue
depending on the strategy, split every other issue evenly; returns the
offer together with the updated core state. -/
def NegoChatCore.get_opening_offer (c : NegoChatCore) : Offer × NegoChatCore :=
  let offer := c.game.issues.foldl
    (fun o i =>
      if c.issue_stacks.stack_a.contains i.name then
        o.set i.name (some (Allocation.all_to_agent i.quantity))
      else if c.issue_stacks.stack_b.contains i.name then
        if c.strategy = StackStrategy.COOPERATIVE then
          o.set i.name (some (Allocation.all_to_human i.quantity))
        else o.set i.name (some (Allocation.split_even i.quantity))
      else o.set i.name (some (Allocation.split_even i.quantity)))
    (Offer.mk [])
  (offer,
    { c with current_proposal := some offer, offers_made := c.offers_made + 1 })

/-- Stack-B concession loop of _make_concession: first issue whose
allocation still has a unit on the agent side, else a unit in the middle,
gets that unit moved to the human; issues missing from the game or from
the offer are skipped. -/
def concedeFromB (g : GameSpec) (off : Offer) : List String → Option Offer
  | [] => none
  | n :: rest =>
    match g.get_issue n with
    | none => concedeFromB g off rest
    | some _ =>
      match off.get n with
      | none => concedeFromB g off rest
      | some cur =>
        if 0 < cur.agent then
          some (off.set n (some ⟨cur.agent - 1, cur.middle, cur.human + 1⟩))
        else if 0 < cur.middle then
          some (off.set n (some ⟨cur.agent, cur.middle - 1, cur.human + 1⟩))
        else concedeFromB g off rest

/-- Neutral and stack-A concession loop of _make_concession: only a unit
on the agent side can be moved to the human. -/
def concedeAgentUnit (g : GameSpec) (off : Offer) : List String → Option Offer
  | [] => none
  | n :: rest =>
    match g.get_issue n with
    | none => concedeAgentUnit g off rest
    | some _ =>
      match off.get n with
      | none => concedeAgentUnit g off rest
      | some cur =>
        if 0 < cur.agent then
          some (off.set n (some ⟨cur.agent - 1, cur.middle, cur.human + 1⟩))
        else concedeAgentUnit g off rest

/-- NegoChatCore._make_concession: with no current proposal fall back to
the opening offer; otherwise work on a copy of the proposal and try
stack_b, then neutral, then the reversed stack_a (least valuable end
first); on success return the new offer and the updated core, otherwise
None. -/
def NegoChatCore.make_concession (c : NegoChatCore) :
    Option (Offer × NegoChatCore) :=
  match c.current_proposal with
  | none => some c.get_opening_offer
  | some p =>
    let offer := p.copy
    let r :=
      match concedeFromB c.game offer c.issue_stacks.stack_b with
      | some o => some o
      | none =>
        match concedeAgentUnit c.game offer c.issue_stacks.neutral with
        | some o => some o
        | none => concedeAgentUnit c.game offer c.issue_stacks.stack_a.reverse
    match r with
    | some o =>
      some (o,
        { c with
          current_proposal := some o
          concession_count := c.concession_count + 1
          offers_made := c.offers_made + 1 })
    | none => none

theorem mem_insertDescBy {α : Type} (key : α → Rat) (y : α) (l : List α) (x : α) :
    x ∈ insertDescBy key y l ↔ x = y ∨ x ∈ l := by
  induction l with
  | nil => simp [insertDescBy]
  | cons z zs ih =>
    simp only [insertDescBy]
    split
    · simp [List.mem_cons]
    · simp only [List.mem_cons, ih]
      tauto

theorem mem_sortDescBy {α : Type} (key : α → Rat) (l : List α) (x : α) :
    x ∈ sortDescBy key l ↔ x ∈ l := by
  induction l with
  | nil => simp [sortDescBy]
  | cons z zs ih => simp [sortDescBy, mem_insertDescBy, ih]

theorem mem_insertAscBy {α : Type} (key : α → Rat) (y : α) (l : List α) (x : α) :
    x ∈ insertAscBy key y l ↔ x = y ∨ x ∈ l := by
  induction l with
  | nil => simp [insertAscBy]
  | cons z zs ih =>
    simp only [insertAscBy]
    split
    · simp [List.mem_cons]
    · simp only [List.mem_cons, ih]
      tauto

theorem mem_sortAscBy {α : Type} (key : α → Rat) (l : List α) (x : α) :
    x ∈ sortAscBy key l ↔ x ∈ l := by
  induction l with
  | nil => simp [sortAscBy]
  | cons z zs ih => simp [sortAscBy, mem_insertAscBy, ih]

theorem mem_partitionAnalyses_a (l : List IssueAnalysis) (n : String) :
    n ∈ (partitionAnalyses l).stack_a ↔
      ∃ a ∈ l, a.issue_name = n ∧ 0 < a.value_difference := by
  induction l with
  | nil => simp [partitionAnalyses]
  | cons a rest ih =>
    simp only [partitionAnalyses]
    by_cases h1 : 0 < a.value_difference
    · simp only [h1, if_true, List.mem_cons, ih]
      constructor
      · rintro (rfl | ⟨b, hb, hn, hd⟩)
        · exact ⟨a, Or.inl rfl, rfl, h1⟩
        · exact ⟨b, Or.inr hb, hn, hd⟩
      · rintro ⟨b, rfl | hb, hn, hd⟩
        · exact Or.inl hn.symm
        · exact Or.inr ⟨b, hb, hn, hd⟩
    · have hsplit :
          n ∈ (if a.value_difference < 0 then
              { partitionAnalyses rest with
                stack_b := a.issue_name :: (partitionAnalyses rest).stack_b }
            else
              { partitionAnalyses rest with
                neutral := a.issue_name :: (partitionAnalyses rest).neutral }).stack_a ↔
            n ∈ (partitionAnalyses rest).stack_a := by
        split <;> rfl
      simp only [h1, if_false, hsplit, ih, List.mem_cons]
      constructor
      · rintro ⟨b, hb, hn, hd⟩
        exact ⟨b, Or.inr hb, hn, hd⟩
      · rintro ⟨b, rfl | hb, hn, hd⟩
        · exact absurd hd h1
        · exact ⟨b, hb, hn, hd⟩

theorem mem_partitionAnalyses_b (l : List IssueAnalysis) (n : String) :
    n ∈ (partitionAnalyses l).stack_b ↔
      ∃ a ∈ l, a.issue_name = n ∧ a.value_difference < 0 := by
  induction l with
  | nil => simp [partitionAnalyses]
  | cons a rest ih =>
    simp only [partitionAnalyses]
    by_cases h1 : 0 < a.value_difference
    · simp only [h1, if_true, ih, List.mem_cons]
      constructor
      · rintro ⟨b, hb, hn, hd⟩
        exact ⟨b, Or.inr hb, hn, hd⟩
      · rintro ⟨b, rfl | hb, hn, hd⟩
        · exact absurd h1 (by linarith)
        · exact ⟨b, hb, hn, hd⟩
    · by_cases h2 : a.value_difference < 0
      · simp only [h1, h2, if_true, if_false, List.mem_cons, ih]
        constructor
        · rintro (rfl | ⟨b, hb, hn, hd⟩)
          · exact ⟨a, Or.inl rfl, rfl, h2⟩
          · exact ⟨b, Or.inr hb, hn, hd⟩
        · rintro ⟨b, rfl | hb, hn, hd⟩
          · exact Or.inl hn.symm
          · exact Or.inr ⟨b, hb, hn, hd⟩
      · simp only [h1, h2, if_false, List.mem_cons, ih]
        constructor
        · rintro ⟨b, hb, hn, hd⟩
          exact ⟨b, Or.inr hb, hn, hd⟩
        · rintro ⟨b, rfl | hb, hn, hd⟩
          · exact absurd hd h2
          · exact ⟨b, hb, hn, hd⟩

theorem mem_partitionAnalyses_n (l : List IssueAnalysis) (n : String) :
    n ∈ (partitionAnalyses l).neutral ↔
      ∃ a ∈ l, a.issue_name = n ∧ a.value_difference = 0 := by
  induction l with
  | nil => simp [partitionAnalyses]
  | cons a rest ih =>
    simp only [partitionAnalyses]
    by_cases h1 : 0 < a.value_difference
    · simp only [h1, if_true, ih, List.mem_cons]
      constructor
      · rintro ⟨b, hb, hn, hd⟩
        exact ⟨b, Or.inr hb, hn, hd⟩
      · rintro ⟨b, rfl | hb, hn, hd⟩
        · exact absurd h1 (by rw [hd]; exact lt_irrefl 0)
        · exact ⟨b, hb, hn, hd⟩
    · by_cases h2 : a.value_difference < 0
      · simp only [h1, h2, if_true, if_false, List.mem_cons, ih]
        constructor
        · rintro ⟨b, hb, hn, hd⟩
          exact ⟨b, Or.inr hb, hn, hd⟩
        · rintro ⟨b, rfl | hb, hn, hd⟩
          · exact absurd h2 (by rw [hd]; exact lt_irrefl 0)
          · exact ⟨b, hb, hn, hd⟩
      · have hz : a.value_difference = 0 := le_antisymm (not_lt.mp h1) (not_lt.mp h2)
        simp only [h1, h2, if_false, List.mem_cons, ih]
        constructor
        · rintro (rfl | ⟨b, hb, hn, hd⟩)
          · exact ⟨a, Or.inl rfl, rfl, hz⟩
          · exact ⟨b, Or.inr hb, hn, hd⟩
        · rintro ⟨b, rfl | hb, hn, hd⟩
          · exact Or.inl hn.symm
          · exact Or.inr ⟨b, hb, hn, hd⟩

theorem analysisList_diff (g : GameSpec) (au ou : UtilityFunction)
    (a : IssueAnalysis) (ha : a ∈ analysisList g au ou) :
    a.value_difference = au.getValue a.issue_name - ou.getValue a.issue_name := by
  simp only [analysisList, List.mem_map] at ha
  obtain ⟨i, hi, rfl⟩ := ha
  rfl

theorem mem_build_stacks_a (g : GameSpec) (au ou : UtilityFunction)
    (strategy : StackStrategy) (n : String) :
    n ∈ (build_stacks g au ou strategy).stack_a ↔
      ∃ a ∈ analysisList g au ou, a.issue_name = n ∧ 0 < a.value_difference := by
  cases strategy <;>
    simp [build_stacks, mem_sortDescBy, mem_partitionAnalyses_a]

theorem mem_build_stacks_b (g : GameSpec) (au ou : UtilityFunction)
    (strategy : StackStrategy) (n : String) :
    n ∈ (build_stacks g au ou strategy).stack_b ↔
      ∃ a ∈ analysisList g au ou, a.issue_name = n ∧ a.value_difference < 0 := by
  cases strategy <;>
    simp [build_stacks, mem_sortDescBy, mem_sortAscBy, mem_partitionAnalyses_b]

theorem mem_build_stacks_n (g : GameSpec) (au ou : UtilityFunction)
    (strategy : StackStrategy) (n : String) :
    n ∈ (build_stacks g au ou strategy).neutral ↔
      ∃ a ∈ analysisList g au ou, a.issue_name = n ∧ a.value_difference = 0 := by
  cases strategy <;>
    simp [build_stacks, mem_sortDescBy, mem_partitionAnalyses_n]

/-- C5: after the stacks are built, every issue of the game lies in
exactly one of stack_a, stack_b, neutral, and which one is determined
solely by the sign of its agent-minus-opponent value difference, for
every strategy. -/
theorem C5_stack_partition (g : GameSpec) (au ou : UtilityFunction)
    (strategy : StackStrategy) (i : Issue) (hi : i ∈ g.issues) :
    (0 < au.getValue i.name - ou.getValue i.name →
      i.name ∈ (build_stacks g au ou strategy).stack_a ∧
      i.name ∉ (build_stacks g au ou strategy).stack_b ∧
      i.name ∉ (build_stacks g au ou strategy).neutral) ∧
    (au.getValue i.name - ou.getValue i.name < 0 →
      i.name ∉ (build_stacks g au ou strategy).stack_a ∧
      i.name ∈ (build_stacks g au ou strategy).stack_b ∧
      i.name ∉ (build_stacks g au ou strategy).neutral) ∧
    (au.getValue i.name - ou.getValue i.name = 0 →
      i.name ∉ (build_stacks g au ou strategy).stack_a ∧
      i.name ∉ (build_stacks g au ou strategy).stack_b ∧
      i.name ∈ (build_stacks g au ou strategy).neutral) := by
  have hmem : (⟨i.name, au.getValue i.name, ou.getValue i.name, i.quantity⟩ :
      IssueAnalysis) ∈ analysisList g au ou :=
    List.mem_map.mpr ⟨i, hi, rfl⟩
  have hdiffFix : ∀ a ∈ analysisList g au ou, a.issue_name = i.name →
      a.value_difference = au.getValue i.name - ou.getValue i.name := by
    intro a ha hn
    rw [analysisList_diff g au ou a ha, hn]
  refine ⟨fun hd => ⟨?_, ?_, ?_⟩, fun hd => ⟨?_, ?_, ?_⟩, fun hd => ⟨?_, ?_, ?_⟩⟩
  · exact (mem_build_stacks_a g au ou strategy i.name).mpr ⟨_, hmem, rfl, hd⟩
  · intro h
    obtain ⟨a, ha, hn, hv⟩ := (mem_build_stacks_b g au ou strategy i.name).mp h
    rw [hdiffFix a ha hn] at hv
    linarith
  · intro h
    obtain ⟨a, ha, hn, hv⟩ := (mem_build_stacks_n g au ou strategy i.name).mp h
    rw [hdiffFix a ha hn] at hv
    linarith
  · intro h
    obtain ⟨a, ha, hn, hv⟩ := (mem_build_stacks_a g au ou strategy i.name).mp h
    rw [hdiffFix a ha hn] at hv
    linarith
  · exact (mem_build_stacks_b g au ou strategy i.name).mpr ⟨_, hmem, rfl, hd⟩
  · intro h
    obtain ⟨a, ha, hn, hv⟩ := (mem_build_stacks_n g au ou strategy i.name).mp h
    rw [hdiffFix a ha hn] at hv
    linarith
  · intro h
    obtain ⟨a, ha, hn, hv⟩ := (mem_build_stacks_a g au ou strategy i.name).mp h
    rw [hdiffFix a ha hn] at hv
    linarith
  · intro h
    obtain ⟨a, ha, hn, hv⟩ := (mem_build_stacks_b g au ou strategy i.name).mp h
    rw [hdiffFix a ha hn] at hv
    linarith
  · exact (mem_build_stacks_n g au ou strategy i.name).mpr ⟨_, hmem, rfl, hd⟩

/-- Agent utility of the spec scenario game: apples 10, oranges 6,
bananas 2. -/
def au6 : UtilityFunction :=
  ⟨Party.AGENT, [("apples", 10), ("oranges", 6), ("bananas", 2)]⟩

/-- Human utility of the spec scenario game: apples 2, oranges 6,
bananas 10. -/
def hu6 : UtilityFunction :=
  ⟨Party.HUMAN, [("apples", 2), ("oranges", 6), ("bananas", 10)]⟩

/-- The spec scenario game: apples quantity 4, oranges quantity 3,
bananas quantity 2. -/
def g6 : GameSpec :=
  { name := "fruit"
    description := "scenario game"
    issues :=
      [⟨"apples", "Apples", 4, false⟩, ⟨"oranges", "Oranges", 3, false⟩,
        ⟨"bananas", "Bananas", 2, false⟩]
    agent_utility := au6
    human_utility := hu6 }

/-- NegoChat core for the scenario game under the balanced strategy with
the default thresholds. -/
def core6 : NegoChatCore :=
  NegoChatCore.init g6 au6 hu6 StackStrategy.BALANCED (2 / 5) (1 / 10)

/-- Witness for C5: in the scenario game, apples (difference 10 minus 2)
land in stack_a and in neither other stack. -/
theorem C5_stack_partition_witness :
    "apples" ∈ (build_stacks g6 au6 hu6 StackStrategy.BALANCED).stack_a ∧
    "apples" ∉ (build_stacks g6 au6 hu6 StackStrategy.BALANCED).stack_b ∧
    "apples" ∉ (build_stacks g6 au6 hu6 StackStrategy.BALANCED).neutral :=
  (C5_stack_partition g6 au6 hu6 StackStrategy.BALANCED
      ⟨"apples", "Apples", 4, false⟩ (by decide)).1
    (by norm_num [au6, hu6, UtilityFunction.getValue, assocGet])

/-- C6: on the scenario game, the balanced opening offer gives all four
apples to the agent, splits the three oranges one-each with one left
undecided, and splits the two bananas one-each with nothing undecided. -/
theorem C6_opening_offer_scenario :
    (core6.get_opening_offer.1.get "apples" = some ⟨4, 0, 0⟩) ∧
    (core6.get_opening_offer.1.get "oranges" = some ⟨1, 1, 1⟩) ∧
    (core6.get_opening_offer.1.get "bananas" = some ⟨1, 0, 1⟩) := by
  have hal : analysisList g6 au6 hu6 =
      [⟨"apples", 10, 2, 4⟩, ⟨"oranges", 6, 6, 3⟩, ⟨"bananas", 2, 10, 2⟩] := by
    simp [analysisList, g6, au6, hu6, UtilityFunction.getValue, assocGet]
  have hst : build_stacks g6 au6 hu6 StackStrategy.BALANCED =
      ⟨["apples"], ["bananas"], ["oranges"], 0, 0⟩ := by
    simp only [build_stacks, hal]
    norm_num [sortDescBy, insertDescBy, IssueAnalysis.value_difference,
      partitionAnalyses]
  simp only [core6, NegoChatCore.init, NegoChatCore.get_opening_offer, hst]
  simp [g6, Offer.get, Offer.set, assocSet, assocGet, Allocation.all_to_agent,
    Allocation.split_even, Allocation.all_to_human]

/-- Condition under which the stack-B loop of _make_concession concedes
at an issue name: the issue exists in the game, its allocation is present
in the offer, and it has a unit on the agent side or in the middle. -/
def canConcedeB (g : GameSpec) (off : Offer) (n : String) : Bool :=
  (g.get_issue n).isSome &&
    match off.get n with
    | some a => decide (0 < a.agent) || decide (0 < a.middle)
    | none => false

/-- Condition under which the neutral and stack-A loops of
_make_concession concede at an issue name: only a unit on the agent side
qualifies. -/
def canConcedeA (g : GameSpec) (off : Offer) (n : String) : Bool :=
  (g.get_issue n).isSome &&
    match off.get n with
    | some a => decide (0 < a.agent)
    | none => false

/-- The single-unit transfer _make_concession performs at a chosen issue:
one unit from the agent side if any, else one unit from the middle, moved
to the human side. -/
def concedeUnit (off : Offer) (n : String) : Offer :=
  match off.get n with
  | some a =>
    if 0 < a.agent then off.set n (some ⟨a.agent - 1, a.middle, a.human + 1⟩)
    else off.set n (some ⟨a.agent, a.middle - 1, a.human + 1⟩)
  | none => off

/-- The issue _make_concession concedes at, following the documented
priority: the first eligible stack_b issue, else the first eligible
neutral issue, else the first eligible issue of the reversed stack_a. -/
def concessionTarget (g : GameSpec) (st : NegotiationStacks) (off : Offer) :
    Option String :=
  match st.stack_b.find? (canConcedeB g off) with
  | some n => some n
  | none =>
    match st.neutral.find? (canConcedeA g off) with
    | some n => some n
    | none => st.stack_a.reverse.find? (canConcedeA g off)

/-- Claim-side predicate of C7: every issue of the game has all of its
units already on the human (opponent) side in the offer. -/
def allUnitsWithOpponent (g : GameSpec) (off : Offer) : Bool :=
  g.issues.all fun i =>
    match off.get i.name with
    | some a => decide (a.agent = 0) && decide (a.middle = 0)
    | none => false

theorem concedeFromB_eq_find (g : GameSpec) (off : Offer) (l : List String) :
    concedeFromB g off l = (l.find? (canConcedeB g off)).map (concedeUnit off) := by
  induction l with
  | nil => rfl
  | cons n rest ih =>
    simp only [concedeFromB, List.find?]
    cases hg : g.get_issue n with
    | none =>
      have hc : canConcedeB g off n = false := by
        simp [canConcedeB, hg]
      rw [hc]
      simpa using ih
    | some i =>
      cases ho : off.get n with
      | none =>
        have hc : canConcedeB g off n = false := by
          simp [canConcedeB, hg, ho]
        rw [hc]
        simpa using ih
      | some cur =>
        by_cases ha : 0 < cur.agent
        · have hc : canConcedeB g off n = true := by
            simp [canConcedeB, hg, ho, ha]
          rw [hc]
          simp [ha, concedeUnit, ho]
        · by_cases hm : 0 < cur.middle
          · have hc : canConcedeB g off n = true := by
              simp [canConcedeB, hg, ho, hm]
            rw [hc]
            simp [ha, hm, concedeUnit, ho]
          · have hc : canConcedeB g off n = false := by
              simp [canConcedeB, hg, ho, ha, hm]
            rw [hc]
            simp only [ha, hm, if_false]
            simpa using ih

theorem concedeAgentUnit_eq_find (g : GameSpec) (off : Offer) (l : List String) :
    concedeAgentUnit g off l =
      (l.find? (canConcedeA g off)).map (concedeUnit off) := by
  induction l with
  | nil => rfl
  | cons n rest ih =>
    simp only [concedeAgentUnit, List.find?]
    cases hg : g.get_issue n with
    | none =>
      have hc : canConcedeA g off n = false := by
        simp [canConcedeA, hg]
      rw [hc]
      simpa using ih
    | some i =>
      cases ho : off.get n with
      | none =>
        have hc : canConcedeA g off n = false := by
          simp [canConcedeA, hg, ho]
        rw [hc]
        simpa using ih
      | some cur =>
        by_cases ha : 0 < cur.agent
        · have hc : canConcedeA g off n = true := by
            simp [canConcedeA, hg, ho, ha]
          rw [hc]
          simp [ha, concedeUnit, ho]
        · have hc : canConcedeA g off n = false := by
            simp [canConcedeA, hg, ho, ha]
          rw [hc]
          simp only [ha, if_false]
          simpa using ih

theorem Offer.copy_eq (o : Offer) : o.copy = o := by
  cases o with
  | mk l =>
    simp only [Offer.copy, Offer.mk.injEq]
    induction l with
    | nil => rfl
    | cons p rest ih =>
      cases p with
      | mk n a =>
        cases a with
        | none => simp [ih]
        | some al =>
          cases al
          simp [ih]

theorem assocGet_assocSet {α : Type} (l : List (String × α)) (n : String)
    (v : α) (m : String) :
    assocGet (assocSet l n v) m = if m = n then some v else assocGet l m := by
  induction l with
  | nil =>
    by_cases h : m = n
    · simp [assocSet, assocGet, h]
    · simp only [assocSet, assocGet, h, if_false]
      rw [if_neg fun hh => h hh.symm]
  | cons p rest ih =>
    cases p with
    | mk k w =>
      simp only [assocSet]
      by_cases hk : k = n
      · subst hk
        simp only [if_true]
        by_cases hm : m = k
        · subst hm
          simp [assocGet]
        · simp only [assocGet]
          rw [if_neg fun hh => hm hh.symm, if_neg hm,
            if_neg fun hh => hm hh.symm]
      · simp only [hk, if_false, assocGet]
        by_cases hm : k = m
        · rw [if_pos hm, if_pos hm, if_neg]
          intro hmn
          exact hk (hm.trans hmn)
        · rw [if_neg hm, if_neg hm, ih]

theorem Offer.get_set (o : Offer) (n : String) (v : Option Allocation)
    (m : String) :
    (o.set n v).get m = if m = n then v else o.get m := by
  simp only [Offer.set, Offer.get, assocGet_assocSet]
  by_cases h : m = n
  · simp [h]
  · simp [h]

theorem canConcedeB_spec (g : GameSpec) (off : Offer) (n : String)
    (h : canConcedeB g off n = true) :
    ∃ a, off.get n = some a ∧ (0 < a.agent ∨ 0 < a.middle) := by
  unfold canConcedeB at h
  cases ho : off.get n with
  | none => rw [ho] at h; simp at h
  | some a =>
    rw [ho] at h
    simp only [Bool.and_eq_true, Bool.or_eq_true, decide_eq_true_eq] at h
    exact ⟨a, rfl, h.2⟩

theorem canConcedeA_spec (g : GameSpec) (off : Offer) (n : String)
    (h : canConcedeA g off n = true) :
    ∃ a, off.get n = some a ∧ 0 < a.agent := by
  unfold canConcedeA at h
  cases ho : off.get n with
  | none => rw [ho] at h; simp at h
  | some a =>
    rw [ho] at h
    simp only [Bool.and_eq_true, decide_eq_true_eq] at h
    exact ⟨a, rfl, h.2⟩

theorem concessionTarget_can (g : GameSpec) (st : NegotiationStacks)
    (off : Offer) (n : String) (h : concessionTarget g st off = some n) :
    canConcedeB g off n = true ∨ canConcedeA g off n = true := by
  unfold concessionTarget at h
  cases hb : st.stack_b.find? (canConcedeB g off) with
  | some m =>
    rw [hb] at h
    cases h
    exact Or.inl (List.find?_some hb)
  | none =>
    rw [hb] at h
    cases hn : st.neutral.find? (canConcedeA g off) with
    | some m =>
      rw [hn] at h
      cases h
      exact Or.inr (List.find?_some hn)
    | none =>
      rw [hn] at h
      exact Or.inr (List.find?_some h)

theorem concessionTarget_none_iff (g : GameSpec) (st : NegotiationStacks)
    (off : Offer) :
    concessionTarget g st off = none ↔
      (∀ n ∈ st.stack_b, canConcedeB g off n = false) ∧
      (∀ n ∈ st.neutral, canConcedeA g off n = false) ∧
      (∀ n ∈ st.stack_a, canConcedeA g off n = false) := by
  unfold concessionTarget
  cases hb : st.stack_b.find? (canConcedeB g off) with
  | some m =>
    simp only [hb]
    constructor
    · intro hh; cases hh
    · rintro ⟨h1, _, _⟩
      have hp := List.find?_some hb
      rw [h1 m (List.mem_of_find?_eq_some hb)] at hp
      cases hp
  | none =>
    have hball : ∀ n ∈ st.stack_b, canConcedeB g off n = false := by
      intro n hn
      have := List.find?_eq_none.mp hb n hn
      simpa using this
    simp only [hb]
    cases hn : st.neutral.find? (canConcedeA g off) with
    | some m =>
      simp only [hn]
      constructor
      · intro hh; cases hh
      · rintro ⟨_, h2, _⟩
        have hp := List.find?_some hn
        rw [h2 m (List.mem_of_find?_eq_some hn)] at hp
        cases hp
    | none =>
      have hnall : ∀ n ∈ st.neutral, canConcedeA g off n = false := by
        intro n hnn
        have := List.find?_eq_none.mp hn n hnn
        simpa using this
      simp only [hn]
      constructor
      · intro ha
        refine ⟨hball, hnall, ?_⟩
        intro n hna
        have := List.find?_eq_none.mp ha n (List.mem_reverse.mpr hna)
        simpa using this
      · rintro ⟨_, _, h3⟩
        rw [List.find?_eq_none]
        intro n hna
        simp [h3 n (List.mem_reverse.mp hna)]

theorem concedeUnit_spec (p : Offer) (n : String) (a : Allocation)
    (ha : p.get n = some a) (hcond : 0 < a.agent ∨ 0 < a.middle) :
    ((0 < a.agent ∧
        (concedeUnit p n).get n = some ⟨a.agent - 1, a.middle, a.human + 1⟩) ∨
      (a.agent = 0 ∧ 0 < a.middle ∧
        (concedeUnit p n).get n = some ⟨a.agent, a.middle - 1, a.human + 1⟩)) ∧
    (∀ m, m ≠ n → (concedeUnit p n).get m = p.get m) := by
  have hcu : concedeUnit p n =
      if 0 < a.agent then
        p.set n (some ⟨a.agent - 1, a.middle, a.human + 1⟩)
      else p.set n (some ⟨a.agent, a.middle - 1, a.human + 1⟩) := by
    unfold concedeUnit
    rw [ha]
  rw [hcu]
  by_cases hag : 0 < a.agent
  · rw [if_pos hag]
    refine ⟨Or.inl ⟨hag, ?_⟩, ?_⟩
    · rw [Offer.get_set, if_pos rfl]
    · intro m hm
      rw [Offer.get_set, if_neg hm]
  · have h0 : a.agent = 0 := Nat.eq_zero_of_not_pos hag
    have hmid : 0 < a.middle := hcond.resolve_left hag
    rw [if_neg hag]
    refine ⟨Or.inr ⟨h0, hmid, ?_⟩, ?_⟩
    · rw [Offer.get_set, if_pos rfl]
    · intro m hm
      rw [Offer.get_set, if_neg hm]

theorem make_concession_target (c : NegoChatCore) (p : Offer)
    (h : c.current_proposal = some p) :
    c.make_concession =
      match concessionTarget c.game c.issue_stacks p with
      | some n =>
        some (concedeUnit p n,
          { c with
            current_proposal := some (concedeUnit p n)
            concession_count := c.concession_count + 1
            offers_made := c.offers_made + 1 })
      | none => none := by
  unfold NegoChatCore.make_concession
  rw [h]
  simp only [Offer.copy_eq, concedeFromB_eq_find, concedeAgentUnit_eq_find]
  unfold concessionTarget
  cases hb : c.issue_stacks.stack_b.find? (canConcedeB c.game p) with
  | some n => simp
  | none =>
    simp only [hb, Option.map_none']
    cases hn : c.issue_stacks.neutral.find? (canConcedeA c.game p) with
    | some n => simp
    | none =>
      simp only [hn, Option.map_none']
      cases ha : c.issue_stacks.stack_a.reverse.find? (canConcedeA c.game p) with
      | some n => simp
      | none => simp

/-- C7 amended: with a current proposal in place, a successful concession
happens at exactly the issue concessionTarget picks (first eligible
stack_b issue, preferring a unit on the agent side over an undecided one,
then first eligible neutral issue, then the reversed stack_a), moves
exactly one unit to the human and leaves every other issue unchanged; and
the result is none exactly when no stack_b issue has a unit on the agent
side or undecided and no neutral or stack_a issue has a unit on the agent
side (undecided units of neutral or stack_a issues are never conceded). -/
theorem C7_single_unit_concession (c : NegoChatCore) (p : Offer)
    (h : c.current_proposal = some p) :
    (∀ o' c', c.make_concession = some (o', c') →
      ∃ n a, concessionTarget c.game c.issue_stacks p = some n ∧
        p.get n = some a ∧ o' = concedeUnit p n ∧
        ((0 < a.agent ∧
            o'.get n = some ⟨a.agent - 1, a.middle, a.human + 1⟩) ∨
          (a.agent = 0 ∧ 0 < a.middle ∧
            o'.get n = some ⟨a.agent, a.middle - 1, a.human + 1⟩)) ∧
        (∀ m, m ≠ n → o'.get m = p.get m)) ∧
    (c.make_concession = none ↔
      (∀ n ∈ c.issue_stacks.stack_b, canConcedeB c.game p n = false) ∧
      (∀ n ∈ c.issue_stacks.neutral, canConcedeA c.game p n = false) ∧
      (∀ n ∈ c.issue_stacks.stack_a, canConcedeA c.game p n = false)) := by
  have hmc := make_concession_target c p h
  constructor
  · intro o' c' hsome
    rw [hmc] at hsome
    cases ht : concessionTarget c.game c.issue_stacks p with
    | none => rw [ht] at hsome; cases hsome
    | some n =>
      rw [ht] at hsome
      simp only [Option.some.injEq, Prod.mk.injEq] at hsome
      obtain ⟨ho, _⟩ := hsome
      have hcan := concessionTarget_can c.game c.issue_stacks p n ht
      have hex : ∃ a, p.get n = some a ∧ (0 < a.agent ∨ 0 < a.middle) := by
        cases hcan with
        | inl hB => exact canConcedeB_spec c.game p n hB
        | inr hA =>
          obtain ⟨a, ha, hag⟩ := canConcedeA_spec c.game p n hA
          exact ⟨a, ha, Or.inl hag⟩
      obtain ⟨a, ha, hcond⟩ := hex
      obtain ⟨htrans, hother⟩ := concedeUnit_spec p n a ha hcond
      subst ho
      exact ⟨n, a, rfl, ha, rfl, htrans, hother⟩
  · rw [hmc]
    cases ht : concessionTarget c.game c.issue_stacks p with
    | none =>
      simp only [ht]
      constructor
      · intro _
        exact (concessionTarget_none_iff _ _ _).mp ht
      · intro _
        trivial
    | some n =>
      simp only [ht]
      constructor
      · intro hh; cases hh
      · intro hall
        have hcn := (concessionTarget_none_iff c.game c.issue_stacks p).mpr hall
        rw [ht] at hcn
        cases hcn

/-- Utility functions of the C7 counterexample game: both parties value
the single issue equally, so it is neutral. -/
def au7 : UtilityFunction := ⟨Party.AGENT, [("gems", 5)]⟩

/-- Human utility of the C7 counterexample game. -/
def hu7 : UtilityFunction := ⟨Party.HUMAN, [("gems", 5)]⟩

/-- C7 counterexample game: one neutral issue with a single unit. -/
def g7 : GameSpec :=
  { name := "gems"
    description := "neutral issue game"
    issues := [⟨"gems", "Gems", 1, false⟩]
    agent_utility := au7
    human_utility := hu7 }

/-- Stacks of g7: the single issue is neutral. -/
def st7 : NegotiationStacks := ⟨[], [], ["gems"], 0, 0⟩

/-- Current proposal of the C7 counterexample: the single unit is still
undecided (in the middle), not on the opponent's side. -/
def p7 : Offer := ⟨[("gems", some ⟨0, 1, 0⟩)]⟩

/-- NegoChat core in the C7 counterexample state. -/
def core7 : NegoChatCore :=
  ⟨g7, au7, hu7, StackStrategy.BALANCED, 2 / 5, 1 / 10, st7, some p7,
    none, 0, 0⟩

/-- C7 counterexample: make_concession returns none although the single
issue of the game still has its unit undecided rather than on the
opponent's side; the stacks are exactly the ones _build_stacks produces
for this game. -/
theorem C7_counterexample_undecided_blocks :
    core7.make_concession = none ∧
    core7.issue_stacks = build_stacks g7 au7 hu7 StackStrategy.BALANCED ∧
    core7.current_proposal = some p7 ∧
    allUnitsWithOpponent core7.game p7 = false := by
  refine ⟨by decide, ?_, rfl, by decide⟩
  have hal : analysisList g7 au7 hu7 = [⟨"gems", 5, 5, 1⟩] := by
    simp [analysisList, g7, au7, hu7, UtilityFunction.getValue, assocGet]
  simp only [build_stacks, hal]
  norm_num [sortDescBy, insertDescBy, IssueAnalysis.value_difference,
    partitionAnalyses, core7, st7]

/-- Proposal for the C7 witness: the unit is already with the human. -/
def p7w : Offer := ⟨[("gems", some ⟨0, 0, 1⟩)]⟩

/-- Core for the C7 witness. -/
def core7w : NegoChatCore :=
  ⟨g7, au7, hu7, StackStrategy.BALANCED, 2 / 5, 1 / 10, st7, some p7w,
    none, 0, 0⟩

/-- Witness for C7: with every unit already on the human side no
concession is possible, through the amended characterization. -/
theorem C7_single_unit_concession_witness :
    core7w.make_concession = none :=
  (C7_single_unit_concession core7w p7w rfl).2.mpr
    ⟨by decide, by decide, by decide⟩

/-- Entries of the EventBus delay queue: (absolute fire time, event),
exactly the tuples _queue_delayed puts on the PriorityQueue. -/
abbrev HeapEntry := Rat × Event

/-- Message of the TypeError Python raises when comparing two Event
instances. -/
def heapTieError : String :=
  "TypeError: < not supported between instances of Event and Event"

/-- Python tuple comparison evaluated by heapq on two queue entries:
fire times are compared first; on a tie the events are compared with ==,
and if they differ Python falls through to Event < Event, which raises
TypeError because Event defines no ordering. -/
def entryLt (x y : HeapEntry) : Except String Bool :=
  if x.1 = y.1 then
    if x.2 = y.2 then Except.ok false
    else Except.error heapTieError
  else Except.ok (decide (x.1 < y.1))

/-- CPython heapq._siftdown: walk the newly appended item from pos up
toward startpos, swapping it below any parent it compares less than; the
comparison can raise. -/
def siftdown (heap : List HeapEntry) (startpos pos : Nat)
    (newitem : HeapEntry) : Except String (List HeapEntry) :=
  if h : startpos < pos then
    let parentpos := (pos - 1) / 2
    let parent := heap[parentpos]?.getD newitem
    match entryLt newitem parent with
    | Except.error msg => Except.error msg
    | Except.ok true => siftdown (heap.set pos parent) startpos parentpos newitem
    | Except.ok false => Except.ok (heap.set pos newitem)
  else Except.ok (heap.set pos newitem)
termination_by pos
decreasing_by
  have h1 : 0 < pos := Nat.lt_of_le_of_lt (Nat.zero_le _) h
  calc (pos - 1) / 2 ≤ pos - 1 := Nat.div_le_self _ _
    _ < pos := Nat.sub_lt h1 Nat.one_pos

/-- CPython heapq.heappush: append the item at the end, then sift it
down from the last position toward the root. -/
def heappush (heap : List HeapEntry) (item : HeapEntry) :
    Except String (List HeapEntry) :=
  siftdown (heap ++ [item]) 0 heap.length item

/-- EventBus._queue_delayed: compute the absolute fire time
now + delay_ms / 1000 and put (fire time, event) on the priority queue,
which heap-inserts the tuple. -/
def queue_delayed (delayed_queue : List HeapEntry) (now : Rat) (e : Event) :
    Except String (List HeapEntry) :=
  heappush delayed_queue (now + (e.delay_ms : Rat) / 1000, e)

/-- First delayed event for C9: published at time 4 with a one second
delay, so its fire time is 5. -/
def busEv1 : Event :=
  ⟨EventType.SEND_MESSAGE, AGENT_ID, Payload.message "m1" none, 1000,
    "b1", 4, none⟩

/-- Second delayed event for C9: same fire time, different event id. -/
def busEv2 : Event :=
  ⟨EventType.SEND_MESSAGE, AGENT_ID, Payload.message "m2" none, 1000,
    "b2", 4, none⟩

/-- C9: queuing the first delayed event succeeds, its fire time is 5, and
queuing a second distinct event with exactly the same fire time raises
TypeError inside the heap insertion instead of keeping insertion order,
because the tie comparison falls through to Event < Event. -/
theorem C9_equal_fire_time_enqueue_raises :
    queue_delayed [] 4 busEv1 =
      Except.ok [(4 + ((1000 : Int) : Rat) / 1000, busEv1)] ∧
    (4 + ((1000 : Int) : Rat) / 1000 : Rat) = 5 ∧
    queue_delayed [(5, busEv1)] 4 busEv2 = Except.error heapTieError := by
  refine ⟨?_, by norm_num, ?_⟩
  · unfold queue_delayed heappush
    rw [siftdown]
    simp [busEv1]
  · have ht : (4 : Rat) + ((busEv2.delay_ms : Int) : Rat) / 1000 = 5 := by
      norm_num [busEv2]
    unfold queue_delayed heappush
    rw [ht]
    rw [siftdown]
    norm_num [entryLt, busEv1, busEv2]
    simp

end Nego
